import Mathlib

set_option maxRecDepth 8000

/-!
Shallow embedding of the memory-analyzer's platform memory readers
(Linux `/proc` parsing, Darwin utility-output parsing), its numeric/text
parsing helpers, and the startup reader selection, together with theorems
settling the specification claims about them.

Go `uint64` arithmetic is modelled as `Nat` reduced modulo `2^64` at each
operation.  Go `map[string]uint64` is modelled as an association list where
insertion conses to the front and lookup takes the first match (so a later
insertion shadows an earlier one, as in Go).
-/

namespace MemAnalyzer

/-- Reduction modulo `2^64`: every Go `uint64` arithmetic step is wrapped. -/
def u64 (n : ℕ) : ℕ := n % 18446744073709551616

/-- `SystemMemoryInfo` struct: total/free/available RAM and swap, in bytes. -/
structure SystemMemoryInfo where
  TotalMemory : ℕ
  FreeMemory : ℕ
  AvailableMemory : ℕ
  SwapTotal : ℕ
  SwapFree : ℕ
deriving DecidableEq, Repr

/-- The zero value `SystemMemoryInfo{}` returned by Go on early error paths. -/
def zeroInfo : SystemMemoryInfo := ⟨0, 0, 0, 0, 0⟩

/-- A parsed `map[string]uint64` (e.g. meminfo stats or vm_stat page counts). -/
abbrev MemMap := List (String × ℕ)

/-- Go map indexing `m[k]`: missing keys yield the zero value. -/
def lookupD (m : MemMap) (k : String) : ℕ := (List.lookup k m).getD 0

/-- Value of a decimal digit string, most significant first
(the accumulator loop used by `strconv` digit parsing). -/
def digitsVal (l : List Char) : ℕ := l.foldl (fun a c => 10 * a + (c.toNat - 48)) 0

/-- `strconv.ParseUint(s, 10, 64)`: non-empty, all ASCII digits, in `uint64`
range; returns `none` on any syntax or range error. -/
def parseUint64 (s : String) : Option ℕ :=
  if s.data ≠ [] ∧ s.data.all Char.isDigit ∧ digitsVal s.data < 18446744073709551616
  then some (digitsVal s.data) else none

/-- Digit part of `strconv.Atoi` after the optional sign: non-empty, all
ASCII digits, within the signed 64-bit range for the given sign. -/
def atoiCore (l : List Char) (neg : Bool) : Option Int :=
  if l ≠ [] ∧ l.all Char.isDigit then
    if neg then
      if digitsVal l ≤ 9223372036854775808 then some (-(digitsVal l : Int)) else none
    else
      if digitsVal l < 9223372036854775808 then some ((digitsVal l : Int)) else none
  else none

/-- `strconv.Atoi`: optional sign, decimal digits, signed 64-bit range;
`none` on any syntax or range error. -/
def atoi (s : String) : Option Int :=
  match s.data with
  | '-' :: r => atoiCore r true
  | '+' :: r => atoiCore r false
  | r => atoiCore r false

/-- `strings.TrimSpace` (ASCII whitespace model). -/
def trimSpace (s : String) : String :=
  ⟨((s.data.dropWhile Char.isWhitespace).reverse.dropWhile Char.isWhitespace).reverse⟩

/-- Does the character list `s` start with the pattern `p`? -/
def listStartsWith : List Char → List Char → Bool
  | _, [] => true
  | [], _ :: _ => false
  | c :: s, d :: t => c == d && listStartsWith s t

/-- `strings.HasSuffix`. -/
def strEndsWith (s t : String) : Bool := listStartsWith s.data.reverse t.data.reverse

/-- `strings.SplitN(line, ":", 2)` when a colon is present: the part before
the first colon and the part after it; `none` when the string has no colon. -/
def splitFirstColon : List Char → Option (List Char × List Char)
  | [] => none
  | c :: r =>
    if c = ':' then some ([], r)
    else (splitFirstColon r).map (fun p => (c :: p.1, p.2))

/-- The `available` computation of `LinuxMemoryReader.ReadSystemMemory`:
`MemAvailable` (×1024) when present, otherwise the already-converted free
bytes plus `Buffers`×1024 plus `Cached`×1024, each only when present. -/
def linuxAvailableMemory (memStats : MemMap) (freeMemory : ℕ) : ℕ :=
  match List.lookup "MemAvailable" memStats with
  | some available => u64 (available * 1024)
  | none =>
    let a1 : ℕ :=
      match List.lookup "Buffers" memStats with
      | some buffers => u64 (freeMemory + u64 (buffers * 1024))
      | none => freeMemory
    match List.lookup "Cached" memStats with
    | some cached => u64 (a1 + u64 (cached * 1024))
    | none => a1

/-- `LinuxMemoryReader.ReadSystemMemory`, from the parsed meminfo mapping to
the returned `(SystemMemoryInfo, error)` pair (`none` = nil error).  Missing
`MemTotal`/`MemFree` return the zero struct with an error; missing
`SwapTotal`/`SwapFree` return the struct populated so far with an error. -/
def linuxSystemFromStats (memStats : MemMap) : SystemMemoryInfo × Option String :=
  match List.lookup "MemTotal" memStats with
  | none => (zeroInfo, some "MemTotal не найден")
  | some total =>
    match List.lookup "MemFree" memStats with
    | none => (zeroInfo, some "MemFree не найден")
    | some free =>
      let totalB := u64 (total * 1024)
      let freeB := u64 (free * 1024)
      let availB := linuxAvailableMemory memStats freeB
      match List.lookup "SwapTotal" memStats with
      | none => (⟨totalB, freeB, availB, 0, 0⟩, some "SwapTotal не найден")
      | some swapTotal =>
        match List.lookup "SwapFree" memStats with
        | none =>
          (⟨totalB, freeB, availB, u64 (swapTotal * 1024), 0⟩, some "SwapFree не найден")
        | some swapFree =>
          (⟨totalB, freeB, availB, u64 (swapTotal * 1024), u64 (swapFree * 1024)⟩, none)

/-- Exponent-digit parsing for the decimal-float grammar: the digits after
`e`/`E` (and its optional sign, `pos`) scale the value `mant / 10^fracLen`
by a power of ten; the result is assembled as a single exact fraction. -/
def expDigits (mant : ℕ) (fracLen : ℕ) (r : List Char) (pos : Bool) : Option ℚ :=
  if r ≠ [] ∧ r.all Char.isDigit then
    some (if pos then mkRat (mant * 10 ^ digitsVal r) (10 ^ fracLen)
      else mkRat mant (10 ^ fracLen * 10 ^ digitsVal r))
  else none

/-- Optional exponent suffix of a decimal float: empty input yields the
value `mant / 10^fracLen`, `e`/`E` with optional sign and digits scales it,
anything else is a syntax error. -/
def applyExp (mant : ℕ) (fracLen : ℕ) : List Char → Option ℚ
  | [] => some (mkRat mant (10 ^ fracLen))
  | c :: r2 =>
    if c = 'e' ∨ c = 'E' then
      match r2 with
      | '+' :: r3 => expDigits mant fracLen r3 true
      | '-' :: r3 => expDigits mant fracLen r3 false
      | r3 => expDigits mant fracLen r3 true
    else none

/-- Unsigned decimal-float grammar `digits [. digits] [(e|E) [+|-] digits]`
(at least one digit in mantissa), with its exact rational value: the
integer and fraction digits form one mantissa over a power-of-ten
denominator. -/
def parseUnsignedDec (l : List Char) : Option ℚ :=
  let ip := l.takeWhile Char.isDigit
  match l.dropWhile Char.isDigit with
  | '.' :: r2 =>
    let fp := r2.takeWhile Char.isDigit
    if ip = [] ∧ fp = [] then none
    else applyExp (digitsVal (ip ++ fp)) fp.length (r2.dropWhile Char.isDigit)
  | r1 => if ip = [] then none else applyExp (digitsVal ip) 0 r1

/-- The decimal-float grammar (optional sign, digits, fraction, exponent)
and the exact rational value of a token in it.  This is a grammar helper
only; `goParseFloat` below models `strconv.ParseFloat` on top of it. -/
def decimalValue (s : String) : Option ℚ :=
  match s.data with
  | '+' :: r => parseUnsignedDec r
  | '-' :: r => (parseUnsignedDec r).map (fun q => -q)
  | r => parseUnsignedDec r

/-- A float64 result, represented abstractly: every finite binary64 value
is exactly a rational, and the non-finite values are listed. -/
inductive Float64Val
  | finite (q : ℚ)
  | inf
  | negInf
  | nan
deriving DecidableEq, Repr

/-- ASCII lower-casing of one character (for the case-insensitive special
float forms). -/
def asciiLower (c : Char) : Char :=
  if 'A' ≤ c ∧ c ≤ 'Z' then Char.ofNat (c.toNat + 32) else c

/-- ASCII lower-casing of a string. -/
def lowerStr (s : String) : String := ⟨s.data.map asciiLower⟩

/-- The special float forms accepted by `strconv.ParseFloat` (its `special`
scan plus the full-consumption check): case-insensitive `inf`/`infinity`
with an optional sign, and unsigned case-insensitive `nan`. -/
def goSpecial (s : String) : Option Float64Val :=
  let l := lowerStr s
  if l = "inf" ∨ l = "+inf" ∨ l = "infinity" ∨ l = "+infinity" then
    some Float64Val.inf
  else if l = "-inf" ∨ l = "-infinity" then some Float64Val.negInf
  else if l = "nan" then some Float64Val.nan
  else none

/-- Smallest positive magnitude at which binary64 rounding overflows to
infinity: `2^1024 − 2^970`, half an ulp beyond the largest finite double. -/
def float64OverflowBound : ℕ := 2 ^ 1024 - 2 ^ 970

/-- Model of `strconv.ParseFloat(s, 64)`.  The special Inf/NaN forms follow
Go's `special` exactly.  A token of the decimal grammar whose magnitude
reaches the binary64 overflow threshold is a failure (Go returns `ErrRange`
there and the caller treats any non-nil error as failure); otherwise the
token's exact rational value is returned.  Model boundary, documented: Go
rounds that exact value to the nearest binary64, so this model agrees with
the program precisely on tokens whose value is binary64-representable —
every value theorem below is scoped to such tokens via
`float64Representable` or uses exactly-representable concrete tokens — and
Go additionally accepts hexadecimal floats and underscored literals, which
never occur in the swap-usage output this parser consumes and are not
accepted here. -/
def goParseFloat (s : String) : Option Float64Val :=
  match goSpecial s with
  | some v => some v
  | none =>
    match decimalValue s with
    | none => none
    | some q =>
      if q ≤ -((float64OverflowBound : ℕ) : ℚ)
          ∨ ((float64OverflowBound : ℕ) : ℚ) ≤ q then none
      else some (Float64Val.finite q)

/-- Binary64 multiplication by a power-of-two multiplier (the `1024^k`
scale factors): exact on finite values — scaling by a power of two leaves
the significand unchanged, so no rounding occurs; the product is assembled
as `num·mult / den` — overflowing to ±Inf at the binary64 threshold;
Inf/NaN propagate. -/
def float64TimesPow2 (v : Float64Val) (mult : ℕ) : Float64Val :=
  match v with
  | Float64Val.finite q =>
    let p : ℚ := mkRat (q.num * (mult : ℤ)) q.den
    if ((float64OverflowBound : ℕ) : ℚ) ≤ p then Float64Val.inf
    else if p ≤ -((float64OverflowBound : ℕ) : ℚ) then Float64Val.negInf
    else Float64Val.finite p
  | v => v

/-- Go's `uint64(f)` conversion of a float64: truncation toward zero for
finite values in `[0, 2^64)`; for negative, non-finite or out-of-range
values the conversion is implementation-defined in Go and is modelled by
the amd64 result `2^63` — no theorem relies on that choice. -/
def goUint64OfFloat64 (v : Float64Val) : ℕ :=
  match v with
  | Float64Val.finite q =>
    if 0 ≤ q ∧ q < ((18446744073709551616 : ℕ) : ℚ) then (Rat.floor q).toNat
    else 9223372036854775808
  | _ => 9223372036854775808

/-- The suffix scan of `parseMemSize`: binary multiplier and the token with
the recognised `K`/`M`/`G`/`T` suffix removed (checked in that order). -/
def memSizeSplit (sizeStr : String) : ℕ × String :=
  if strEndsWith sizeStr "K" then (1024, ⟨sizeStr.data.dropLast⟩)
  else if strEndsWith sizeStr "M" then (1048576, ⟨sizeStr.data.dropLast⟩)
  else if strEndsWith sizeStr "G" then (1073741824, ⟨sizeStr.data.dropLast⟩)
  else if strEndsWith sizeStr "T" then (1099511627776, ⟨sizeStr.data.dropLast⟩)
  else (1, sizeStr)

/-- `parseMemSize`: strip an optional `K`/`M`/`G`/`T` suffix, parse the
rest with `strconv.ParseFloat`, propagate its failure, and otherwise
multiply the float64 by the binary multiplier and convert to `uint64`. -/
def parseMemSize (sizeStr : String) : Except String ℕ :=
  let ms := memSizeSplit sizeStr
  match goParseFloat ms.2 with
  | none => Except.error "invalid syntax"
  | some val => Except.ok (goUint64OfFloat64 (float64TimesPow2 val ms.1))

/-- Exactly the rationals that are finite binary64 values (`m·2^e` with
`|m| ≤ 2^53`, `−1074 ≤ e ≤ 971`).  On a decimal token with such a value the
correctly-rounded `strconv.ParseFloat` returns the value exactly, so
`goParseFloat`'s exact rational agrees with the program; the value theorems
are scoped by this predicate. -/
def float64Representable (q : ℚ) : Prop :=
  ∃ (m : ℤ) (e : ℤ), m.natAbs ≤ 2 ^ 53 ∧ -1074 ≤ e ∧ e ≤ 971
    ∧ q = (m : ℚ) * 2 ^ e

/-- `strings.Trim(s, ".")`: dots removed from both ends. -/
def trimDots (s : String) : String :=
  ⟨((s.data.dropWhile (fun c => c == '.')).reverse.dropWhile (fun c => c == '.')).reverse⟩

/-- `strings.Split(line, ":")` on a character list. -/
def splitAllColon : List Char → List (List Char)
  | [] => [[]]
  | c :: r =>
    if c = ':' then [] :: splitAllColon r
    else
      match splitAllColon r with
      | [] => [[c]]
      | a :: rest => (c :: a) :: rest

/-- `strings.Fields`: maximal runs of non-whitespace characters. -/
def splitWsAux : List Char → List Char → List (List Char)
  | [], acc => if acc = [] then [] else [acc.reverse]
  | c :: r, acc =>
    if c.isWhitespace then
      if acc = [] then splitWsAux r [] else acc.reverse :: splitWsAux r []
    else splitWsAux r (c :: acc)

/-- `strings.Fields` entry point. -/
def splitWs (l : List Char) : List (List Char) := splitWsAux l []

/-- `strings.TrimPrefix(key, "Pages ")` applied to vm_stat labels. -/
def stripPagesLabel (s : String) : String :=
  if listStartsWith s.data ("Pages ".data) then ⟨s.data.drop 6⟩ else s

/-- The vm_stat parsing loop of `DarwinMemoryReader.ReadSystemMemory`: trim
each line, skip blanks and the `Mach Virtual Memory Statistics` banner,
split on `:` requiring exactly two parts, trim the value and strip trailing
dots, skip lines whose value is not an unsigned integer, strip the
`"Pages "` label and insert into the map (later lines shadow earlier ones). -/
def parseVmStatLines (lines : List String) : MemMap :=
  lines.foldl (fun m line =>
    let l := trimSpace line
    if l.data = [] then m
    else if listStartsWith l.data ("Mach Virtual Memory Statistics".data) then m
    else
      match splitAllColon l.data with
      | [k, v] =>
        match parseUint64 (trimDots (trimSpace ⟨v⟩)) with
        | none => m
        | some value => (stripPagesLabel (trimSpace ⟨k⟩), value) :: m
      | _ => m) []

/-- `freePages` of the Darwin reader: free plus inactive page counts,
missing keys counting as zero. -/
def darwinFreePages (VmStats : MemMap) : ℕ :=
  u64 (lookupD VmStats "free" + lookupD VmStats "inactive")

/-- `availablePages` of the Darwin reader: free + inactive + speculative
pages, plus `file-backed pages` when that key exists, else `cache` when that
key exists, else nothing extra. -/
def darwinAvailablePages (VmStats : MemMap) : ℕ :=
  let base := u64 (u64 (lookupD VmStats "free" + lookupD VmStats "inactive")
    + lookupD VmStats "speculative")
  match List.lookup "file-backed pages" VmStats with
  | some fileCache => u64 (base + fileCache)
  | none =>
    match List.lookup "cache" VmStats with
    | some cache => u64 (base + cache)
    | none => base

/-- The `SystemMemoryInfo` constructed by `DarwinMemoryReader.ReadSystemMemory`
from the parsed total, page statistics and swap figures (page size 4096). -/
def darwinInfoFromStats (totalMemory : ℕ) (VmStats : MemMap)
    (swapTotal swapFree : ℕ) : SystemMemoryInfo :=
  ⟨totalMemory, u64 (darwinFreePages VmStats * 4096),
    u64 (darwinAvailablePages VmStats * 4096), swapTotal, swapFree⟩

/-- `DarwinMemoryReader.ReadSystemMemory` over the captured utility outputs:
`sysctl -n hw.memsize` stdout, `vm_stat` stdout lines, and
`sysctl -n vm.swapusage` stdout.  Swap figures sit at whitespace-token
indices 2 and 8; fewer than 9 tokens or an unparsable token is fatal. -/
def darwinReadSystemMemory (memsizeOut : String) (vmStatLines : List String)
    (swapOut : String) : SystemMemoryInfo × Option String :=
  let totalMemoryStr := trimSpace memsizeOut
  if totalMemoryStr.data = [] then
    (zeroInfo, some "Не удалось получить информации об общем объеме RAM")
  else
    match parseUint64 totalMemoryStr with
    | none => (zeroInfo, some "strconv: invalid syntax")
    | some totalMemory =>
      let VmStats := parseVmStatLines vmStatLines
      let parts := splitWs (trimSpace swapOut).data
      if parts.length < 9 then (zeroInfo, some "Неверный формат SwapInfo")
      else
        match parseMemSize ⟨parts.getD 2 []⟩ with
        | Except.error _ => (zeroInfo, some "Невозможно распарсить TotalSwap")
        | Except.ok total =>
          match parseMemSize ⟨parts.getD 8 []⟩ with
          | Except.error _ => (zeroInfo, some "Невозможно распарсить FreeSwap")
          | Except.ok free =>
            (darwinInfoFromStats totalMemory VmStats total free, none)

/-- `DarwinMemoryReader.GetProcessList` over the captured `ps -e -o pid=`
stdout lines: trim each line, skip blanks, parse with `strconv.Atoi`,
skip lines that fail to parse, and append every parsed value. -/
def darwinProcessListFrom (lines : List String) : List Int :=
  lines.filterMap (fun line =>
    let l := trimSpace line
    if l.data = [] then none else atoi l)

/-- A `/proc` directory entry as seen by `os.ReadDir`. -/
structure DirEntry where
  name : String
  isDir : Bool
deriving DecidableEq, Repr

/-- `isAllDigits` (ASCII model).  Go's `unicode.IsDigit` also accepts
non-ASCII decimal digits, but `strconv.Atoi` downstream rejects any
non-ASCII character, so the composed PID filter is unchanged. -/
def isAllDigits (s : String) : Bool := s.data.all Char.isDigit

/-- One iteration of the `LinuxMemoryReader.GetProcessList` loop: skip
non-directories and non-digit names, parse with `strconv.Atoi`, skip parse
errors, and keep only values strictly greater than zero. -/
def entryPid (e : DirEntry) : Option Int :=
  if !e.isDir then none
  else if !isAllDigits e.name then none
  else
    match atoi e.name with
    | none => none
    | some pid => if pid > 0 then some pid else none

/-- `LinuxMemoryReader.GetProcessList` over the `/proc` directory listing. -/
def linuxProcessListFrom (entries : List DirEntry) : List Int :=
  entries.filterMap entryPid

/-- The path built by `LinuxMemoryReader.ReadProcessMemory`:
`filepath.Join("proc", strconv.Itoa(pid), "status")` — note the missing
leading slash, so the path is relative to the working directory. -/
def linuxStatusPath (pid : Int) : String :=
  "proc/" ++ toString pid ++ "/status"

/-- `extractValue`: split on the first colon, trim the value, drop a
trailing `kB`, trim again and parse as an unsigned integer. -/
def extractValue (line : String) : Except String ℕ :=
  match splitFirstColon line.data with
  | none => Except.error "Неверный формат строки"
  | some p =>
    let v1 := trimSpace ⟨p.2⟩
    let v2 := if strEndsWith v1 "kB" then (⟨v1.data.dropLast.dropLast⟩ : String) else v1
    let v3 := trimSpace v2
    match parseUint64 v3 with
    | some val => Except.ok val
    | none => Except.error ("Не удалось конвертировать значение VmRSS: " ++ v3)

/-- The line scan of `LinuxMemoryReader.ReadProcessMemory`: the first
trimmed line starting with `VmRSS:` is parsed by `extractValue` and
multiplied by 1024; no such line is a not-found error. -/
def linuxScanVmRSS : List String → Int → Except String ℕ
  | [], pid => Except.error ("VmRSS не найден для PID " ++ toString pid)
  | line :: rest, pid =>
    let l := trimSpace line
    if listStartsWith l.data ("VmRSS:".data) then
      match extractValue l with
      | Except.error e => Except.error e
      | Except.ok val => Except.ok (u64 (val * 1024))
    else linuxScanVmRSS rest pid

/-- `LinuxMemoryReader.ReadProcessMemory` over the opened status file
(`none` models a failed `os.Open` of the relative `proc/<pid>/status`). -/
def linuxReadProcessMemoryFrom (statusFile : Option (List String)) (pid : Int) :
    Except String ℕ :=
  match statusFile with
  | none => Except.error ("open " ++ linuxStatusPath pid ++ ": no such file or directory")
  | some lines => linuxScanVmRSS lines pid

/-- The two reader variants of the `MemoryReader` interface. -/
inductive ReaderChoice
  | linuxReader
  | darwinReader
deriving DecidableEq, Repr

/-- Outcome of `main`'s startup: a reader was selected and the loop starts,
or the process terminated with the given exit status and message. -/
inductive StartupResult
  | started (r : ReaderChoice)
  | exited (code : ℕ) (msg : String)
deriving DecidableEq, Repr

/-- The `switch runtime.GOOS` at the top of `main`: darwin and linux select
their variant; any other identifier prints `Unsupported operating system`
and returns from `main`, which terminates the process with exit status 0. -/
def mainStartup (goos : String) : StartupResult :=
  if goos = "darwin" then StartupResult.started ReaderChoice.darwinReader
  else if goos = "linux" then StartupResult.started ReaderChoice.linuxReader
  else StartupResult.exited 0 ("Unsupported operating system: " ++ goos ++ "\n")

/-- Digit names without a leading zero (the canonical decimal form used by
`/proc` PID directories). -/
def noLeadingZero (s : String) : Bool :=
  match s.data with
  | '0' :: _ :: _ => false
  | _ => true

/-- Removing the `uint64` wrap when the value is in range. -/
theorem u64_eq_of_lt {n : ℕ} (h : n < 18446744073709551616) : u64 n = n :=
  Nat.mod_eq_of_lt h

/-- The `AvailableMemory` field of the Linux snapshot is
`linuxAvailableMemory` applied to the converted free bytes, whenever
`MemTotal` and `MemFree` are present (on every swap branch). -/
theorem linux_avail_field (m : MemMap) (t free : ℕ)
    (ht : List.lookup "MemTotal" m = some t)
    (hf : List.lookup "MemFree" m = some free) :
    (linuxSystemFromStats m).1.AvailableMemory
      = linuxAvailableMemory m (u64 (free * 1024)) := by
  unfold linuxSystemFromStats
  rw [ht, hf]
  rcases hst : List.lookup "SwapTotal" m with _ | st
  · rfl
  · rcases hsf : List.lookup "SwapFree" m with _ | sf <;> rfl

/-- C1: for a parsed Linux meminfo mapping containing `MemFree` (and
`MemTotal`, so that the computation is reached), the snapshot's available
bytes are `MemAvailable × 1024` when that key is present, and
`(MemFree + Buffers + Cached) × 1024` when it is absent, a missing
`Buffers` or `Cached` key contributing zero. -/
theorem linux_available_fallback (m : MemMap) (t free : ℕ)
    (ht : List.lookup "MemTotal" m = some t)
    (hf : List.lookup "MemFree" m = some free)
    (hbound : (free + lookupD m "Buffers" + lookupD m "Cached") * 1024
      < 18446744073709551616) :
    (List.lookup "MemAvailable" m = none →
      (linuxSystemFromStats m).1.AvailableMemory
        = (free + lookupD m "Buffers" + lookupD m "Cached") * 1024)
    ∧ (∀ av, List.lookup "MemAvailable" m = some av →
        av * 1024 < 18446744073709551616 →
      (linuxSystemFromStats m).1.AvailableMemory = av * 1024) := by
  rw [linux_avail_field m t free ht hf]
  constructor
  · intro hna
    unfold linuxAvailableMemory
    rw [hna]
    rcases hb : List.lookup "Buffers" m with _ | buffers <;>
      rcases hc : List.lookup "Cached" m with _ | cached <;>
      simp only [lookupD, hb, hc, Option.getD_some, Option.getD_none, u64] at hbound ⊢ <;>
      omega
  · intro av hav hav2
    unfold linuxAvailableMemory
    rw [hav]
    exact u64_eq_of_lt hav2

/-- C2: for any parsed Darwin page-statistics mapping (missing keys counting
as zero), the snapshot sets free bytes to (free + inactive pages) × 4096 and
available bytes to (free + inactive + speculative pages) × 4096 plus
file-backed-cache pages × 4096 when that key exists, else generic cache
pages × 4096 when that key exists, else nothing extra. -/
theorem darwin_free_available_pages (tm : ℕ) (VmStats : MemMap) (st sf : ℕ)
    (hbound : (lookupD VmStats "free" + lookupD VmStats "inactive"
        + lookupD VmStats "speculative" + lookupD VmStats "file-backed pages"
        + lookupD VmStats "cache") * 4096 < 18446744073709551616) :
    ((darwinInfoFromStats tm VmStats st sf).FreeMemory
      = (lookupD VmStats "free" + lookupD VmStats "inactive") * 4096)
    ∧ (∀ fbc, List.lookup "file-backed pages" VmStats = some fbc →
      (darwinInfoFromStats tm VmStats st sf).AvailableMemory
        = (lookupD VmStats "free" + lookupD VmStats "inactive"
          + lookupD VmStats "speculative" + fbc) * 4096)
    ∧ (List.lookup "file-backed pages" VmStats = none →
        ∀ c, List.lookup "cache" VmStats = some c →
      (darwinInfoFromStats tm VmStats st sf).AvailableMemory
        = (lookupD VmStats "free" + lookupD VmStats "inactive"
          + lookupD VmStats "speculative" + c) * 4096)
    ∧ (List.lookup "file-backed pages" VmStats = none →
        List.lookup "cache" VmStats = none →
      (darwinInfoFromStats tm VmStats st sf).AvailableMemory
        = (lookupD VmStats "free" + lookupD VmStats "inactive"
          + lookupD VmStats "speculative") * 4096) := by
  refine ⟨?_, ?_, ?_, ?_⟩
  · show u64 (darwinFreePages VmStats * 4096) = _
    simp only [darwinFreePages, u64] at hbound ⊢
    omega
  · intro fbc hfbc
    show u64 (darwinAvailablePages VmStats * 4096) = _
    have hd : lookupD VmStats "file-backed pages" = fbc := by
      simp [lookupD, hfbc]
    simp only [darwinAvailablePages, hfbc, u64] at hbound ⊢
    rw [hd] at hbound
    omega
  · intro hfbc c hc
    show u64 (darwinAvailablePages VmStats * 4096) = _
    have hd : lookupD VmStats "cache" = c := by
      simp [lookupD, hc]
    simp only [darwinAvailablePages, hfbc, hc, u64] at hbound ⊢
    rw [hd] at hbound
    omega
  · intro hfbc hc
    show u64 (darwinAvailablePages VmStats * 4096) = _
    simp only [darwinAvailablePages, hfbc, hc, u64] at hbound ⊢
    omega

/-- Witness for C2 at the spec's example mapping: free=100, inactive=50,
speculative=20, file-backed pages=30 gives free bytes 150×4096 and
available bytes 200×4096. -/
theorem darwin_free_available_pages_witness :
    (darwinInfoFromStats 999999999 [("free", 100), ("inactive", 50),
        ("speculative", 20), ("file-backed pages", 30)] 7 3).FreeMemory
      = (100 + 50) * 4096
    ∧ (darwinInfoFromStats 999999999 [("free", 100), ("inactive", 50),
        ("speculative", 20), ("file-backed pages", 30)] 7 3).AvailableMemory
      = (100 + 50 + 20 + 30) * 4096 := by
  have h := darwin_free_available_pages 999999999
    [("free", 100), ("inactive", 50), ("speculative", 20),
     ("file-backed pages", 30)] 7 3 (by decide)
  refine ⟨?_, ?_⟩
  · have h1 := h.1
    simpa using h1
  · have h2 := h.2.1 30 (by decide)
    simpa using h2

/-- C4: a successful snapshot from either variant satisfies
available ≤ total, free ≤ total and swapFree ≤ swapTotal whenever the source
data is self-consistent (free/available figures bounded by the total, swap
free bounded by swap total, values in `uint64` range). -/
theorem memory_info_invariants :
    (∀ (m : MemMap) (t f st sf : ℕ),
      List.lookup "MemTotal" m = some t →
      List.lookup "MemFree" m = some f →
      List.lookup "SwapTotal" m = some st →
      List.lookup "SwapFree" m = some sf →
      f ≤ t → sf ≤ st →
      (∀ av, List.lookup "MemAvailable" m = some av → av ≤ t) →
      f + lookupD m "Buffers" + lookupD m "Cached" ≤ t →
      t * 1024 < 18446744073709551616 →
      st * 1024 < 18446744073709551616 →
      (linuxSystemFromStats m).2 = none
      ∧ (linuxSystemFromStats m).1.AvailableMemory
        ≤ (linuxSystemFromStats m).1.TotalMemory
      ∧ (linuxSystemFromStats m).1.FreeMemory
        ≤ (linuxSystemFromStats m).1.TotalMemory
      ∧ (linuxSystemFromStats m).1.SwapFree
        ≤ (linuxSystemFromStats m).1.SwapTotal)
    ∧ (∀ (tm : ℕ) (VmStats : MemMap) (st sf : ℕ),
      u64 (darwinFreePages VmStats * 4096) ≤ tm →
      u64 (darwinAvailablePages VmStats * 4096) ≤ tm →
      sf ≤ st →
      (darwinInfoFromStats tm VmStats st sf).AvailableMemory
        ≤ (darwinInfoFromStats tm VmStats st sf).TotalMemory
      ∧ (darwinInfoFromStats tm VmStats st sf).FreeMemory
        ≤ (darwinInfoFromStats tm VmStats st sf).TotalMemory
      ∧ (darwinInfoFromStats tm VmStats st sf).SwapFree
        ≤ (darwinInfoFromStats tm VmStats st sf).SwapTotal) := by
  constructor
  · intro m t f st sf ht hf hst hsf hft hsw hav hfall hbt hbst
    have hall : linuxSystemFromStats m
        = (⟨u64 (t * 1024), u64 (f * 1024),
            linuxAvailableMemory m (u64 (f * 1024)),
            u64 (st * 1024), u64 (sf * 1024)⟩, none) := by
      unfold linuxSystemFromStats; rw [ht, hf, hst, hsf]
    rw [hall]
    refine ⟨rfl, ?_, ?_, ?_⟩
    · show linuxAvailableMemory m (u64 (f * 1024)) ≤ u64 (t * 1024)
      unfold linuxAvailableMemory
      rcases hma : List.lookup "MemAvailable" m with _ | av
      · rcases hb : List.lookup "Buffers" m with _ | b <;>
          rcases hc : List.lookup "Cached" m with _ | c <;>
          simp only [lookupD, hb, hc, Option.getD_some, Option.getD_none, u64]
            at hfall ⊢ <;>
          omega
      · have h1 := hav av hma
        simp only [u64]
        omega
    · show u64 (f * 1024) ≤ u64 (t * 1024)
      simp only [u64]
      omega
    · show u64 (sf * 1024) ≤ u64 (st * 1024)
      simp only [u64]
      omega
  · intro tm VmStats st sf h1 h2 h3
    exact ⟨h2, h1, h3⟩

/-- Witness for C4 on both variants at concrete self-consistent data. -/
theorem memory_info_invariants_witness :
    ((linuxSystemFromStats [("MemTotal", 16777216), ("MemFree", 4194304),
        ("MemAvailable", 8000000), ("SwapTotal", 8388608),
        ("SwapFree", 7340032)]).2 = none
      ∧ (linuxSystemFromStats [("MemTotal", 16777216), ("MemFree", 4194304),
          ("MemAvailable", 8000000), ("SwapTotal", 8388608),
          ("SwapFree", 7340032)]).1.AvailableMemory
        ≤ (linuxSystemFromStats [("MemTotal", 16777216), ("MemFree", 4194304),
          ("MemAvailable", 8000000), ("SwapTotal", 8388608),
          ("SwapFree", 7340032)]).1.TotalMemory)
    ∧ (darwinInfoFromStats 999999999 [("free", 100), ("inactive", 50)] 7 3).FreeMemory
      ≤ (darwinInfoFromStats 999999999 [("free", 100), ("inactive", 50)] 7 3).TotalMemory := by
  constructor
  · have h := memory_info_invariants.1
      [("MemTotal", 16777216), ("MemFree", 4194304), ("MemAvailable", 8000000),
       ("SwapTotal", 8388608), ("SwapFree", 7340032)]
      16777216 4194304 8388608 7340032
      (by decide) (by decide) (by decide) (by decide) (by decide) (by decide)
      (by
        intro av h
        rw [(by decide : List.lookup "MemAvailable"
          [("MemTotal", (16777216 : ℕ)), ("MemFree", 4194304), ("MemAvailable", 8000000),
           ("SwapTotal", 8388608), ("SwapFree", 7340032)] = some 8000000)] at h
        injection h with h2
        omega)
      (by decide) (by decide) (by decide)
    exact ⟨h.1, h.2.1⟩
  · exact (memory_info_invariants.2 999999999 [("free", 100), ("inactive", 50)]
      7 3 (by decide) (by decide) (by decide)).2.1

/-- C6: the Linux snapshot returns a non-nil error whenever any of
`MemTotal`, `MemFree`, `SwapTotal`, `SwapFree` is absent, and when all four
are present it succeeds with each converted to bytes by multiplying
by 1024. -/
theorem linux_required_fields (m : MemMap) :
    ((List.lookup "MemTotal" m = none ∨ List.lookup "MemFree" m = none
        ∨ List.lookup "SwapTotal" m = none ∨ List.lookup "SwapFree" m = none) →
      (linuxSystemFromStats m).2.isSome = true)
    ∧ (∀ t f st sf,
        List.lookup "MemTotal" m = some t →
        List.lookup "MemFree" m = some f →
        List.lookup "SwapTotal" m = some st →
        List.lookup "SwapFree" m = some sf →
        t * 1024 < 18446744073709551616 →
        f * 1024 < 18446744073709551616 →
        st * 1024 < 18446744073709551616 →
        sf * 1024 < 18446744073709551616 →
        (linuxSystemFromStats m).1.TotalMemory = t * 1024
        ∧ (linuxSystemFromStats m).1.FreeMemory = f * 1024
        ∧ (linuxSystemFromStats m).1.SwapTotal = st * 1024
        ∧ (linuxSystemFromStats m).1.SwapFree = sf * 1024
        ∧ (linuxSystemFromStats m).2 = none) := by
  constructor
  · intro h
    unfold linuxSystemFromStats
    rcases ht : List.lookup "MemTotal" m with _ | t
    · rfl
    rcases hf : List.lookup "MemFree" m with _ | f
    · rfl
    rcases hst : List.lookup "SwapTotal" m with _ | st
    · rfl
    rcases hsf : List.lookup "SwapFree" m with _ | sf
    · rfl
    simp [ht, hf, hst, hsf] at h
  · intro t f st sf ht hf hst hsf hbt hbf hbst hbsf
    unfold linuxSystemFromStats
    rw [ht, hf, hst, hsf]
    exact ⟨u64_eq_of_lt hbt, u64_eq_of_lt hbf, u64_eq_of_lt hbst, u64_eq_of_lt hbsf, rfl⟩

/-- Witness for C6: a mapping missing `MemTotal` yields an error, and the
spec's complete synthetic mapping succeeds with all four byte fields. -/
theorem linux_required_fields_witness :
    (linuxSystemFromStats [("MemFree", 4194304), ("SwapTotal", 8388608),
        ("SwapFree", 7340032)]).2.isSome = true
    ∧ (linuxSystemFromStats [("MemTotal", 16777216), ("MemFree", 4194304),
        ("SwapTotal", 8388608), ("SwapFree", 7340032)]).1.TotalMemory
      = 16777216 * 1024 := by
  refine ⟨(linux_required_fields _).1 (Or.inl (by decide)), ?_⟩
  exact ((linux_required_fields _).2 16777216 4194304 8388608 7340032
    (by decide) (by decide) (by decide) (by decide)
    (by decide) (by decide) (by decide) (by decide)).1

/-- C10: the Linux snapshot's error paths are not atomic.  Missing
`MemTotal` or `MemFree` returns the zero struct with an error, while missing
`SwapTotal` (resp. `SwapFree`) returns the struct with total, free and
available bytes (resp. also the swap total) already populated, together with
the error. -/
theorem linux_snapshot_partial_on_error (m : MemMap) :
    (List.lookup "MemTotal" m = none →
      linuxSystemFromStats m = (zeroInfo, some "MemTotal не найден"))
    ∧ (∀ t, List.lookup "MemTotal" m = some t →
        List.lookup "MemFree" m = none →
      linuxSystemFromStats m = (zeroInfo, some "MemFree не найден"))
    ∧ (∀ t f, List.lookup "MemTotal" m = some t →
        List.lookup "MemFree" m = some f →
        List.lookup "SwapTotal" m = none →
      linuxSystemFromStats m
        = (⟨u64 (t * 1024), u64 (f * 1024),
            linuxAvailableMemory m (u64 (f * 1024)), 0, 0⟩,
          some "SwapTotal не найден"))
    ∧ (∀ t f st, List.lookup "MemTotal" m = some t →
        List.lookup "MemFree" m = some f →
        List.lookup "SwapTotal" m = some st →
        List.lookup "SwapFree" m = none →
      linuxSystemFromStats m
        = (⟨u64 (t * 1024), u64 (f * 1024),
            linuxAvailableMemory m (u64 (f * 1024)), u64 (st * 1024), 0⟩,
          some "SwapFree не найден")) := by
  refine ⟨?_, ?_, ?_, ?_⟩
  · intro ht; unfold linuxSystemFromStats; rw [ht]
  · intro t ht hf; unfold linuxSystemFromStats; rw [ht, hf]
  · intro t f ht hf hst; unfold linuxSystemFromStats; rw [ht, hf, hst]
  · intro t f st ht hf hst hsf; unfold linuxSystemFromStats; rw [ht, hf, hst, hsf]

/-- Witness for C10 at a mapping with `MemTotal` and `MemFree` but no
`SwapTotal`: total, free and available bytes are populated alongside the
error. -/
theorem linux_snapshot_partial_on_error_witness :
    linuxSystemFromStats [("MemTotal", 16777216), ("MemFree", 4194304)]
      = (⟨17179869184, 4294967296, 4294967296, 0, 0⟩,
        some "SwapTotal не найден") := by
  have h := (linux_snapshot_partial_on_error
    [("MemTotal", 16777216), ("MemFree", 4194304)]).2.2.1
    16777216 4194304 (by decide) (by decide) (by decide)
  rw [h]
  decide

/-- Witness for C1 at the spec's synthetic meminfo mapping with
`Buffers` and `Cached` present and `MemAvailable` absent. -/
theorem linux_available_fallback_witness :
    (linuxSystemFromStats [("MemTotal", 16777216), ("MemFree", 4194304),
        ("Buffers", 1048576), ("Cached", 2097152),
        ("SwapTotal", 8388608), ("SwapFree", 7340032)]).1.AvailableMemory
      = (4194304 + 1048576 + 2097152) * 1024 := by
  have h := linux_available_fallback
    [("MemTotal", 16777216), ("MemFree", 4194304),
     ("Buffers", 1048576), ("Cached", 2097152),
     ("SwapTotal", 8388608), ("SwapFree", 7340032)]
    16777216 4194304 (by decide) (by decide) (by decide)
  have h2 := h.1 (by decide)
  simpa using h2

/-- C3 (code bug): the path built by the Linux per-process reader is the
relative `proc/1/status`, not the absolute `/proc/1/status` pseudo-file the
specification names, so the open fails whenever the working directory is
not the filesystem root. -/
theorem linux_status_path_relative :
    linuxStatusPath 1 = "proc/1/status"
    ∧ linuxStatusPath 1 ≠ "/proc/1/status" := by
  decide

/-- C9 counterexample: on an unsupported platform identifier, `main` prints
the message and returns, terminating the process with exit status 0 — not a
non-zero status as claimed. -/
theorem unsupported_platform_exit_zero :
    mainStartup "windows"
      = StartupResult.exited 0 ("Unsupported operating system: windows\n") := by
  decide

/-- C9 amended: exactly one reader variant is selected from the OS
identifier (linux → Linux variant, darwin → Darwin variant); any other
identifier terminates startup with an `Unsupported operating system`
message, no reader constructed — but with exit status 0 (a plain return
from `main`), not a non-zero status. -/
theorem reader_selection_amended :
    mainStartup "linux" = StartupResult.started ReaderChoice.linuxReader
    ∧ mainStartup "darwin" = StartupResult.started ReaderChoice.darwinReader
    ∧ (∀ goos, goos ≠ "linux" → goos ≠ "darwin" →
      mainStartup goos
        = StartupResult.exited 0 ("Unsupported operating system: " ++ goos ++ "\n")) := by
  refine ⟨by decide, by decide, ?_⟩
  intro goos h1 h2
  unfold mainStartup
  rw [if_neg h2, if_neg h1]

/-- Witness for C9 (amended) at the identifier `plan9`. -/
theorem reader_selection_amended_witness :
    mainStartup "plan9"
      = StartupResult.exited 0 ("Unsupported operating system: plan9\n") :=
  reader_selection_amended.2.2 "plan9" (by decide) (by decide)

/-- C8 counterexample: the Darwin enumeration appends every line that
parses as an integer with no positivity check, so a `-5` line produces the
non-positive pid -5. -/
theorem darwin_pid_not_positive :
    darwinProcessListFrom ["-5"] = [-5] ∧ ¬ (0 : Int) < -5 := by
  decide

/-- C8 amended: every pid from the Linux enumeration is strictly positive;
the Darwin enumeration returns exactly the integer parses of its non-blank
lines, so its pids are all positive exactly when every line that parses as
an integer parses to a positive one. -/
theorem pid_positivity_amended :
    (∀ (entries : List DirEntry) (p : Int),
      p ∈ linuxProcessListFrom entries → 0 < p)
    ∧ (∀ (lines : List String) (p : Int),
      (∀ line ∈ lines, ∀ k : Int, atoi (trimSpace line) = some k → 0 < k) →
      p ∈ darwinProcessListFrom lines → 0 < p) := by
  constructor
  · intro entries p hp
    simp only [linuxProcessListFrom, List.mem_filterMap] at hp
    obtain ⟨e, _, he⟩ := hp
    unfold entryPid at he
    split at he
    · exact Option.noConfusion he
    split at he
    · exact Option.noConfusion he
    split at he
    · exact Option.noConfusion he
    split at he
    · rename_i pid _ hpid
      injection he with h2
      omega
    · exact Option.noConfusion he
  · intro lines p hall hp
    simp only [darwinProcessListFrom, List.mem_filterMap] at hp
    obtain ⟨line, hline, he⟩ := hp
    split at he
    · exact Option.noConfusion he
    · exact hall line hline p he

/-- Witness for C8 (amended): pid 5 from a Linux listing and pid 7 from a
Darwin listing whose integer lines are all positive. -/
theorem pid_positivity_amended_witness : (0 : Int) < 5 ∧ (0 : Int) < 7 := by
  constructor
  · exact pid_positivity_amended.1 [⟨"5", true⟩] 5 (by decide)
  · refine pid_positivity_amended.2 ["7"] 7 ?_ (by decide)
    intro line hl k hk
    have hl2 : line = "7" := by simpa using hl
    subst hl2
    rw [(by decide : atoi (trimSpace "7") = some 7)] at hk
    injection hk with h2
    omega


/-- Folding the digit accumulator from an arbitrary accumulator. -/
theorem foldl_digits (l : List Char) (a : ℕ) :
    l.foldl (fun a c => 10 * a + (c.toNat - 48)) a
      = a * 10 ^ l.length + digitsVal l := by
  induction l generalizing a with
  | nil => simp [digitsVal]
  | cons c r ih =>
    show List.foldl _ (10 * a + (c.toNat - 48)) r = _
    rw [ih]
    have h2 : digitsVal (c :: r) = (c.toNat - 48) * 10 ^ r.length + digitsVal r := by
      show List.foldl _ (10 * 0 + (c.toNat - 48)) r = _
      rw [ih]
      ring_nf
    rw [h2, List.length_cons, pow_succ]
    ring

/-- Head/tail decomposition of a digit string's value. -/
theorem digitsVal_cons (c : Char) (r : List Char) :
    digitsVal (c :: r) = (c.toNat - 48) * 10 ^ r.length + digitsVal r := by
  show List.foldl _ (10 * 0 + (c.toNat - 48)) r = _
  rw [foldl_digits]
  ring_nf

/-- A digit string's value is below `10 ^ length`. -/
theorem digitsVal_lt (l : List Char) (h : l.all Char.isDigit = true) :
    digitsVal l < 10 ^ l.length := by
  induction l with
  | nil => simp [digitsVal]
  | cons c r ih =>
    simp only [List.all_cons, Bool.and_eq_true] at h
    have hc : c.toNat ≤ 57 := by
      have h5 := h.1
      simp [Char.isDigit] at h5
      exact h5.2
    have h3 := ih h.2
    rw [digitsVal_cons, List.length_cons, pow_succ]
    have h4 : c.toNat - 48 ≤ 9 := by omega
    nlinarith

/-- ASCII digits have code points at least 48. -/
theorem digit_toNat_ge (c : Char) (h : c.isDigit = true) : 48 ≤ c.toNat := by
  simp [Char.isDigit] at h
  exact h.1

/-- Characters with equal code points are equal. -/
theorem digit_eq_of_toNat_eq {c d : Char} (h : c.toNat = d.toNat) : c = d := by
  have h2 := Char.ofNat_toNat c
  rw [h, Char.ofNat_toNat] at h2
  exact h2.symm

/-- Digit strings of equal length with equal value are equal. -/
theorem digits_eq_of_val_eq : ∀ (l1 l2 : List Char), l1.length = l2.length →
    l1.all Char.isDigit = true → l2.all Char.isDigit = true →
    digitsVal l1 = digitsVal l2 → l1 = l2 := by
  intro l1
  induction l1 with
  | nil =>
    intro l2 hl _ _ _
    cases l2 with
    | nil => rfl
    | cons d u => simp at hl
  | cons c r ih =>
    intro l2 hl hd1 hd2 hv
    cases l2 with
    | nil => simp at hl
    | cons d u =>
      simp only [List.length_cons, Nat.succ_inj] at hl
      simp only [List.all_cons, Bool.and_eq_true] at hd1 hd2
      rw [digitsVal_cons, digitsVal_cons, hl] at hv
      have hb1 : digitsVal r < 10 ^ u.length := hl ▸ digitsVal_lt r hd1.2
      have hb2 : digitsVal u < 10 ^ u.length := digitsVal_lt u hd2.2
      have hK : 0 < 10 ^ u.length := Nat.pos_pow_of_pos _ (by omega)
      have e1 : ∀ (x v : ℕ), v < 10 ^ u.length →
          (x * 10 ^ u.length + v) / 10 ^ u.length = x := by
        intro x v hv2
        rw [mul_comm, Nat.mul_add_div hK, Nat.div_eq_of_lt hv2, add_zero]
      have hcd : c.toNat - 48 = d.toNat - 48 := by
        have h6 := congrArg (fun z => z / 10 ^ u.length) hv
        simpa [e1 _ _ hb1, e1 _ _ hb2] using h6
      have htail : digitsVal r = digitsVal u := by
        rw [hcd] at hv
        exact Nat.add_left_cancel hv
      have hhead : c = d := by
        have g1 := digit_toNat_ge c hd1.1
        have g2 := digit_toNat_ge d hd2.1
        exact digit_eq_of_toNat_eq (by omega)
      rw [hhead, ih u hl hd1.2 hd2.2 htail]

/-- A digit string with a nonzero leading digit has value at least
`10 ^ (length - 1)`. -/
theorem digitsVal_head_lower (c : Char) (r : List Char)
    (hc : c.isDigit = true) (hc0 : c ≠ '0') :
    10 ^ r.length ≤ digitsVal (c :: r) := by
  rw [digitsVal_cons]
  have g1 := digit_toNat_ge c hc
  have g2 : c.toNat ≠ 48 := by
    intro h
    exact hc0 (digit_eq_of_toNat_eq (h.trans rfl))
  have g3 : 1 ≤ c.toNat - 48 := by omega
  nlinarith [Nat.pos_pow_of_pos r.length (show 0 < 10 by omega)]

/-- Canonical (no leading zero) positive digit strings are determined by
their value. -/
theorem canonical_digits_inj (l1 l2 : List Char)
    (hd1 : l1.all Char.isDigit = true) (hd2 : l2.all Char.isDigit = true)
    (hc1 : ∀ x xs, l1 = '0' :: x :: xs → False)
    (hc2 : ∀ x xs, l2 = '0' :: x :: xs → False)
    (hpos : 0 < digitsVal l1)
    (hv : digitsVal l1 = digitsVal l2) : l1 = l2 := by
  have hneline : ∀ (l : List Char), l.all Char.isDigit = true →
      (∀ x xs, l = '0' :: x :: xs → False) → 0 < digitsVal l →
      ∃ c r, l = c :: r ∧ c.isDigit = true ∧ c ≠ '0' := by
    intro l hdl hcan hp
    cases l with
    | nil => simp [digitsVal] at hp
    | cons c r =>
      simp only [List.all_cons, Bool.and_eq_true] at hdl
      refine ⟨c, r, rfl, hdl.1, ?_⟩
      intro hc
      subst hc
      cases r with
      | nil => simp [digitsVal_cons, digitsVal] at hp
      | cons x xs => exact hcan x xs rfl
  obtain ⟨c, r, he1, hcd, hc0⟩ := hneline l1 hd1 hc1 hpos
  obtain ⟨d, u, he2, hdd, hd0⟩ := hneline l2 hd2 hc2 (hv ▸ hpos)
  subst he1; subst he2
  have hlen : r.length = u.length := by
    rcases Nat.lt_trichotomy r.length u.length with h | h | h
    · exfalso
      have b1 : digitsVal (c :: r) < 10 ^ (r.length + 1) := by
        have b0 := digitsVal_lt (c :: r) hd1
        simpa using b0
      have b2 : 10 ^ u.length ≤ digitsVal (d :: u) := digitsVal_head_lower d u hdd hd0
      have b3 : 10 ^ (r.length + 1) ≤ 10 ^ u.length :=
        Nat.pow_le_pow_right (by omega) (by omega)
      omega
    · exact h
    · exfalso
      have b1 : digitsVal (d :: u) < 10 ^ (u.length + 1) := by
        have b0 := digitsVal_lt (d :: u) hd2
        simpa using b0
      have b2 : 10 ^ r.length ≤ digitsVal (c :: r) := digitsVal_head_lower c r hcd hc0
      have b3 : 10 ^ (u.length + 1) ≤ 10 ^ r.length :=
        Nat.pow_le_pow_right (by omega) (by omega)
      omega
  exact digits_eq_of_val_eq (c :: r) (d :: u) (by simpa using hlen) hd1 hd2 hv

/-- Occurrence count in a `filterMap` as a `countP` over the source list. -/
theorem count_filterMap_eq {α β : Type} [DecidableEq β] (f : α → Option β)
    (l : List α) (b : β) :
    (l.filterMap f).count b = l.countP (fun a => f a == some b) := by
  induction l with
  | nil => rfl
  | cons a l ih =>
    rcases hf : f a with _ | v
    · rw [List.filterMap_cons_none hf, List.countP_cons, ih]
      simp [hf]
    · rw [List.filterMap_cons_some hf, List.count_cons, List.countP_cons, ih]
      by_cases hv : v = b <;> simp [hf, hv]

/-- Unfolding `noLeadingZero`: such a name never starts with `0` followed by
more characters. -/
theorem noLeadingZero_spec (s : String) (h : noLeadingZero s = true) :
    ∀ x xs, s.data = '0' :: x :: xs → False := by
  intro x xs he
  unfold noLeadingZero at h
  rw [he] at h
  exact Bool.noConfusion h

/-- `strconv.Atoi` on a non-empty in-range digit string returns its value. -/
theorem atoi_digits (s : String) (hdig : s.data.all Char.isDigit = true)
    (hne : s.data ≠ []) (hlt : digitsVal s.data < 9223372036854775808) :
    atoi s = some ((digitsVal s.data : ℕ) : Int) := by
  unfold atoi
  split
  · rename_i r heq
    rw [heq] at hdig
    simp only [List.all_cons, Bool.and_eq_true] at hdig
    exact absurd hdig.1 (by decide)
  · rename_i r heq
    rw [heq] at hdig
    simp only [List.all_cons, Bool.and_eq_true] at hdig
    exact absurd hdig.1 (by decide)
  · rename_i r h1 h2
    unfold atoiCore
    rw [if_pos ⟨hne, hdig⟩, if_neg (by decide : ¬ (false = true)), if_pos hlt]


/-- Inversion of `strconv.Atoi` on all-digit strings. -/
theorem atoi_digits_inv (s : String) (k : Int)
    (hdig : s.data.all Char.isDigit = true) (hk : atoi s = some k) :
    k = ((digitsVal s.data : ℕ) : Int)
    ∧ digitsVal s.data < 9223372036854775808 := by
  unfold atoi at hk
  split at hk
  · rename_i r heq
    rw [heq] at hdig
    simp only [List.all_cons, Bool.and_eq_true] at hdig
    exact absurd hdig.1 (by decide)
  · rename_i r heq
    rw [heq] at hdig
    simp only [List.all_cons, Bool.and_eq_true] at hdig
    exact absurd hdig.1 (by decide)
  · simp only [atoiCore, Bool.false_eq_true, if_false] at hk
    split at hk
    · split at hk
      · injection hk with h3
        exact ⟨h3.symm, by assumption⟩
      · exact Option.noConfusion hk
    · exact Option.noConfusion hk

/-- A digit-named directory entry with a positive in-range value passes the
PID filter with exactly that value. -/
theorem entryPid_digits (e : DirEntry) (hd : e.isDir = true)
    (hdig : isAllDigits e.name = true) (hpos : 0 < digitsVal e.name.data)
    (hlt : digitsVal e.name.data < 9223372036854775808) :
    entryPid e = some ((digitsVal e.name.data : ℕ) : Int) := by
  have hne : e.name.data ≠ [] := by
    intro h0
    rw [h0] at hpos
    simp [digitsVal] at hpos
  unfold entryPid
  rw [hd, hdig]
  simp only [Bool.not_true, Bool.false_eq_true, if_false]
  rw [atoi_digits e.name hdig hne hlt]
  show (if ((digitsVal e.name.data : ℕ) : Int) > 0
      then some ((digitsVal e.name.data : ℕ) : Int) else none) = _
  rw [if_pos (by exact_mod_cast hpos)]

/-- Inversion of the PID filter: an accepted entry is a digit-named
directory whose parse is the returned positive pid. -/
theorem entryPid_some_inv (e : DirEntry) (k : Int) (h : entryPid e = some k) :
    e.isDir = true ∧ isAllDigits e.name = true ∧ atoi e.name = some k ∧ 0 < k := by
  unfold entryPid at h
  split at h
  · exact Option.noConfusion h
  rename_i hdir
  split at h
  · exact Option.noConfusion h
  rename_i hdig
  split at h
  · exact Option.noConfusion h
  rename_i pid ha
  split at h
  · rename_i hpid
    injection h with h2
    subst h2
    refine ⟨by simpa using hdir, by simpa using hdig, ha, hpid⟩
  · exact Option.noConfusion h

/-- C7 counterexample: the digit name `9223372036854775808` (2^63)
represents a positive integer, yet `strconv.Atoi`'s signed-64-bit range
check makes the enumeration exclude it, so the claim as stated fails. -/
theorem linux_pid_overflow_excluded :
    isAllDigits "9223372036854775808" = true
    ∧ 0 < digitsVal "9223372036854775808".data
    ∧ linuxProcessListFrom [⟨"9223372036854775808", true⟩] = [] := by
  decide

/-- C7 amended: names with a non-digit character are excluded; the name
`0` is excluded; and every digit name representing a positive integer
within the signed 64-bit range is included exactly once (in a listing with
distinct names in canonical decimal form). -/
theorem linux_pid_filter_amended :
    (∀ e : DirEntry, (∃ c ∈ e.name.data, c.isDigit = false) → entryPid e = none)
    ∧ (∀ e : DirEntry, e.name = "0" → entryPid e = none)
    ∧ (∀ (entries : List DirEntry) (e : DirEntry),
        (entries.map DirEntry.name).Nodup →
        (∀ e2 ∈ entries, isAllDigits e2.name = true → noLeadingZero e2.name = true) →
        e ∈ entries → e.isDir = true → isAllDigits e.name = true →
        0 < digitsVal e.name.data →
        digitsVal e.name.data < 9223372036854775808 →
        (linuxProcessListFrom entries).count ((digitsVal e.name.data : ℕ) : Int) = 1) := by
  refine ⟨?_, ?_, ?_⟩
  · intro e hc
    obtain ⟨c, hcm, hcd⟩ := hc
    have hfalse : isAllDigits e.name = false := by
      simp only [isAllDigits, List.all_eq_false]
      exact ⟨c, hcm, by simp [hcd]⟩
    unfold entryPid
    split
    · rfl
    · rw [if_pos (by simp [hfalse])]
  · intro e h
    rcases e with ⟨nm, d⟩
    simp only at h
    subst h
    cases d <;> decide
  · intro entries e hnd hcanon he hd hdig hpos hlt
    have hpe : entryPid e = some ((digitsVal e.name.data : ℕ) : Int) :=
      entryPid_digits e hd hdig hpos hlt
    obtain ⟨l1, l2, hsplit⟩ := List.append_of_mem he
    subst hsplit
    unfold linuxProcessListFrom
    rw [count_filterMap_eq, List.countP_append, List.countP_cons]
    rw [List.map_append, List.map_cons] at hnd
    have hnotin1 : e.name ∉ l1.map DirEntry.name :=
      fun hm => (List.disjoint_of_nodup_append hnd) hm (List.mem_cons_self _ _)
    have hnotin2 : e.name ∉ l2.map DirEntry.name :=
      (List.nodup_cons.mp (hnd.of_append_right)).1
    have hkey : ∀ e2, e2 ∈ l1 ++ e :: l2 →
        entryPid e2 = some ((digitsVal e.name.data : ℕ) : Int) →
        e2.name = e.name := by
      intro e2 hm2 hp2
      obtain ⟨hdir2, hdig2, ha2, hpos2⟩ := entryPid_some_inv e2 _ hp2
      obtain ⟨hkeq, hlt2⟩ := atoi_digits_inv e2.name _ hdig2 ha2
      have hveq : digitsVal e2.name.data = digitsVal e.name.data := by
        exact_mod_cast hkeq.symm
      have hc2 := hcanon e2 hm2 hdig2
      have hc1 := hcanon e (List.mem_append_right l1 (List.mem_cons_self _ _)) hdig
      have hld : e2.name.data = e.name.data :=
        canonical_digits_inj e2.name.data e.name.data hdig2 hdig
          (noLeadingZero_spec e2.name hc2) (noLeadingZero_spec e.name hc1)
          (hveq ▸ hpos) hveq
      exact String.ext hld
    have hcp1 : l1.countP
        (fun a => entryPid a == some ((digitsVal e.name.data : ℕ) : Int)) = 0 := by
      rw [List.countP_eq_zero]
      intro e2 hm2
      simp only [beq_iff_eq]
      intro hp2
      exact hnotin1 (List.mem_map.mpr
        ⟨e2, hm2, hkey e2 (List.mem_append_left _ hm2) hp2⟩)
    have hcp2 : l2.countP
        (fun a => entryPid a == some ((digitsVal e.name.data : ℕ) : Int)) = 0 := by
      rw [List.countP_eq_zero]
      intro e2 hm2
      simp only [beq_iff_eq]
      intro hp2
      exact hnotin2 (List.mem_map.mpr
        ⟨e2, hm2, hkey e2 (List.mem_append_right _ (List.mem_cons_of_mem _ hm2)) hp2⟩)
    rw [hcp1, hcp2]
    simp [hpe]

/-- Witness for C7 (amended) on a concrete directory listing. -/
theorem linux_pid_filter_amended_witness :
    (linuxProcessListFrom [⟨"5", true⟩, ⟨"abc", true⟩, ⟨"0", true⟩,
      ⟨"12", false⟩]).count 5 = 1 := by
  have h := linux_pid_filter_amended.2.2
    [⟨"5", true⟩, ⟨"abc", true⟩, ⟨"0", true⟩, ⟨"12", false⟩] ⟨"5", true⟩
    (by decide) (by decide) (by decide) (by decide) (by decide)
    (by decide) (by decide)
  simpa using h


/-- Suffix test after appending one character compares just that character. -/
theorem strEndsWith_push (s : String) (c : Char) (d : Char) :
    strEndsWith ⟨s.data ++ [c]⟩ ⟨[d]⟩ = (c == d) := by
  unfold strEndsWith
  show listStartsWith ((s.data ++ [c]).reverse) ([d].reverse) = _
  rw [List.reverse_append]
  simp [listStartsWith]

/-- A `K`-suffixed token selects multiplier 1024 and strips the suffix. -/
theorem memSizeSplit_K (s : String) : memSizeSplit (s ++ "K") = (1024, s) := by
  have hdata : (s ++ "K").data = s.data ++ ['K'] := rfl
  have hK : strEndsWith (s ++ "K") "K" = true := by
    have := strEndsWith_push s 'K' 'K'
    simpa using this
  unfold memSizeSplit
  rw [if_pos hK]
  have : (s ++ "K").data.dropLast = s.data := by
    rw [hdata, List.dropLast_concat]
  rw [this]


/-- An `M`-suffixed token selects multiplier 1024² and strips the suffix. -/
theorem memSizeSplit_M (s : String) : memSizeSplit (s ++ "M") = (1048576, s) := by
  have hdata : (s ++ "M").data = s.data ++ ['M'] := rfl
  have hKf : strEndsWith (s ++ "M") "K" = false := by
    have h := strEndsWith_push s 'M' 'K'
    simpa using h
  have hM : strEndsWith (s ++ "M") "M" = true := by
    have h := strEndsWith_push s 'M' 'M'
    simpa using h
  unfold memSizeSplit
  rw [if_neg (by simp [hKf]), if_pos hM, hdata, List.dropLast_concat]

/-- A `G`-suffixed token selects multiplier 1024³ and strips the suffix. -/
theorem memSizeSplit_G (s : String) : memSizeSplit (s ++ "G") = (1073741824, s) := by
  have hdata : (s ++ "G").data = s.data ++ ['G'] := rfl
  have hKf : strEndsWith (s ++ "G") "K" = false := by
    have h := strEndsWith_push s 'G' 'K'
    simpa using h
  have hMf : strEndsWith (s ++ "G") "M" = false := by
    have h := strEndsWith_push s 'G' 'M'
    simpa using h
  have hG : strEndsWith (s ++ "G") "G" = true := by
    have h := strEndsWith_push s 'G' 'G'
    simpa using h
  unfold memSizeSplit
  rw [if_neg (by simp [hKf]), if_neg (by simp [hMf]), if_pos hG, hdata,
    List.dropLast_concat]

/-- A `T`-suffixed token selects multiplier 1024⁴ and strips the suffix. -/
theorem memSizeSplit_T (s : String) : memSizeSplit (s ++ "T") = (1099511627776, s) := by
  have hdata : (s ++ "T").data = s.data ++ ['T'] := rfl
  have hKf : strEndsWith (s ++ "T") "K" = false := by
    have h := strEndsWith_push s 'T' 'K'
    simpa using h
  have hMf : strEndsWith (s ++ "T") "M" = false := by
    have h := strEndsWith_push s 'T' 'M'
    simpa using h
  have hGf : strEndsWith (s ++ "T") "G" = false := by
    have h := strEndsWith_push s 'T' 'G'
    simpa using h
  have hT : strEndsWith (s ++ "T") "T" = true := by
    have h := strEndsWith_push s 'T' 'T'
    simpa using h
  unfold memSizeSplit
  rw [if_neg (by simp [hKf]), if_neg (by simp [hMf]), if_neg (by simp [hGf]),
    if_pos hT, hdata, List.dropLast_concat]

/-- A token with none of the four suffixes keeps multiplier 1. -/
theorem memSizeSplit_none (s : String) (hK : strEndsWith s "K" = false)
    (hM : strEndsWith s "M" = false) (hG : strEndsWith s "G" = false)
    (hT : strEndsWith s "T" = false) : memSizeSplit s = (1, s) := by
  unfold memSizeSplit
  rw [if_neg (by simp [hK]), if_neg (by simp [hM]), if_neg (by simp [hG]),
    if_neg (by simp [hT])]

/-- `parseMemSize` in terms of its suffix split. -/
theorem parseMemSize_of_split (s : String) :
    parseMemSize s
      = match goParseFloat (memSizeSplit s).2 with
        | none => Except.error "invalid syntax"
        | some val =>
          Except.ok (goUint64OfFloat64 (float64TimesPow2 val (memSizeSplit s).1)) := rfl

/-- Truncation of an exactly-integral rational. -/
theorem rat_floor_toNat_of_eq_nat {q : ℚ} {n : ℕ} (h : q = (n : ℚ)) :
    (Rat.floor q).toNat = n := by
  have h2 : Rat.floor q = ⌊((n : ℕ) : ℚ)⌋ := by rw [h]; rfl
  rw [h2, Int.floor_natCast]
  exact Int.toNat_natCast n

/-- The exact product `num·m / den` is multiplication by the natural `m`. -/
theorem mkRat_mul_nat (q : ℚ) (m : ℕ) :
    (mkRat (q.num * (m : ℤ)) q.den : ℚ) = q * ((m : ℕ) : ℚ) := by
  rw [Rat.mkRat_eq_div]
  push_cast
  rw [mul_div_right_comm, Rat.num_div_den]

/-- The `uint64` range sits far below the binary64 overflow threshold. -/
theorem uint64_lt_overflow :
    ((18446744073709551616 : ℕ) : ℚ) < ((float64OverflowBound : ℕ) : ℚ) := by
  have h : (18446744073709551616 : ℕ) < float64OverflowBound := by decide
  exact_mod_cast h

/-- The overflow threshold is positive. -/
theorem overflowBound_pos : (0 : ℚ) < ((float64OverflowBound : ℕ) : ℚ) := by
  have h : 0 < float64OverflowBound := by decide
  exact_mod_cast h

/-- Power-of-two scaling of an in-range non-negative finite float64 is the
exact product. -/
theorem float64TimesPow2_finite (q : ℚ) (mult : ℕ) (h0 : 0 ≤ q)
    (hlt : q * ((mult : ℕ) : ℚ) < ((float64OverflowBound : ℕ) : ℚ)) :
    float64TimesPow2 (Float64Val.finite q) mult
      = Float64Val.finite (q * ((mult : ℕ) : ℚ)) := by
  have h0p : 0 ≤ q * ((mult : ℕ) : ℚ) := mul_nonneg h0 (Nat.cast_nonneg mult)
  simp only [float64TimesPow2]
  rw [mkRat_mul_nat]
  rw [if_neg (not_le.mpr hlt),
    if_neg (not_le.mpr (lt_of_lt_of_le (neg_lt_zero.mpr overflowBound_pos) h0p))]

/-- `uint64` conversion of an in-range non-negative finite float64
truncates toward zero. -/
theorem goUint64OfFloat64_finite (q : ℚ) (h0 : 0 ≤ q)
    (hlt : q < ((18446744073709551616 : ℕ) : ℚ)) :
    goUint64OfFloat64 (Float64Val.finite q) = (Rat.floor q).toNat := by
  show (if 0 ≤ q ∧ q < ((18446744073709551616 : ℕ) : ℚ)
    then (Rat.floor q).toNat else 9223372036854775808) = _
  rw [if_pos ⟨h0, hlt⟩]

/-- `parseMemSize` on a token whose numeric portion parses to an in-range
non-negative finite float64: the result is the value times the multiplier,
truncated. -/
theorem parseMemSize_finite_case (s rest : String) (mult : ℕ) (q : ℚ)
    (hsplit : memSizeSplit s = (mult, rest))
    (hpf : goParseFloat rest = some (Float64Val.finite q))
    (h0 : 0 ≤ q)
    (hb : q * ((mult : ℕ) : ℚ) < ((18446744073709551616 : ℕ) : ℚ)) :
    parseMemSize s = Except.ok ((Rat.floor (q * ((mult : ℕ) : ℚ))).toNat) := by
  have heval : parseMemSize s
      = match goParseFloat rest with
        | none => Except.error "invalid syntax"
        | some val => Except.ok (goUint64OfFloat64 (float64TimesPow2 val mult)) := by
    rw [parseMemSize_of_split, hsplit]
  rw [heval, hpf]
  show Except.ok (goUint64OfFloat64 (float64TimesPow2 (Float64Val.finite q) mult)) = _
  rw [float64TimesPow2_finite q mult h0 (lt_trans hb uint64_lt_overflow),
    goUint64OfFloat64_finite _ (mul_nonneg h0 (Nat.cast_nonneg mult)) hb]

/-- C5 counterexample: the program does not fail exactly on non-decimal
numeric portions.  `strconv.ParseFloat` also accepts the special form
`inf`, so `parseMemSize "infK"` succeeds although `inf` is not a decimal
number; and it reports a range error on `1e400`, so `parseMemSize "1e400"`
fails although `1e400` is a valid decimal float. -/
theorem parseMemSize_float_forms_cex :
    (parseMemSize "infK").isOk = true
    ∧ decimalValue "inf" = none
    ∧ (parseMemSize "1e400").isOk = false
    ∧ (decimalValue "1e400").isSome = true := by
  decide

/-- C5 amended (the original claim fails in two ways: the float parser also
accepts Inf/NaN special forms without error, e.g. `infK` succeeds though
`inf` is no decimal number, and rejects decimal floats beyond the binary64
range, e.g. `1e400` fails; moreover binary64 rounding parses
non-representable decimal values inexactly, e.g. Go maps
`9007199254740993` to 9007199254740992, so the exact-value mapping is scoped
to representable values): `parseMemSize` strips one `K`/`M`/`G`/`T` suffix
choosing multiplier 1024¹..1024⁴ (1 with none), multiplies the float64
parse of the numeric portion by it (exactly — the multiplier is a power of
two) and truncates; for a decimal token with binary64-representable value
(where the correctly-rounded `ParseFloat` is exact) whose scaled value fits
`uint64`, that is the number times the multiplier — in particular
`2048.00M` yields 2048×1024×1024 — and the call fails exactly when the
float64 parse of the numeric portion fails. -/
theorem parseMemSize_amended :
    parseMemSize "2048.00M" = Except.ok (2048 * 1024 * 1024)
    ∧ (∀ (s : String) (q : ℚ), goParseFloat s = some (Float64Val.finite q) →
        float64Representable q → 0 ≤ q →
        q * ((1099511627776 : ℕ) : ℚ) < ((18446744073709551616 : ℕ) : ℚ) →
        parseMemSize (s ++ "K")
          = Except.ok ((Rat.floor (q * ((1024 : ℕ) : ℚ))).toNat)
        ∧ parseMemSize (s ++ "M")
          = Except.ok ((Rat.floor (q * ((1048576 : ℕ) : ℚ))).toNat)
        ∧ parseMemSize (s ++ "G")
          = Except.ok ((Rat.floor (q * ((1073741824 : ℕ) : ℚ))).toNat)
        ∧ parseMemSize (s ++ "T")
          = Except.ok ((Rat.floor (q * ((1099511627776 : ℕ) : ℚ))).toNat))
    ∧ (∀ s : String, strEndsWith s "K" = false → strEndsWith s "M" = false →
        strEndsWith s "G" = false → strEndsWith s "T" = false →
        (∀ q : ℚ, goParseFloat s = some (Float64Val.finite q) →
          float64Representable q → 0 ≤ q →
          q < ((18446744073709551616 : ℕ) : ℚ) →
          parseMemSize s = Except.ok ((Rat.floor q).toNat))
        ∧ (goParseFloat s = none →
          parseMemSize s = Except.error "invalid syntax"))
    ∧ (∀ s : String, (∃ msg, parseMemSize s = Except.error msg)
        ↔ goParseFloat (memSizeSplit s).2 = none) := by
  refine ⟨?_, ?_, ?_, ?_⟩
  · refine (parseMemSize_finite_case "2048.00M" "2048.00" 1048576 (mkRat 204800 100)
      (by decide) (by decide) (by decide) ?_).trans
      (congrArg Except.ok (rat_floor_toNat_of_eq_nat ?_))
    · rw [Rat.mkRat_eq_div]
      push_cast
      norm_num
    · rw [Rat.mkRat_eq_div]
      push_cast
      norm_num
  · intro s q hpf hrep h0 hbound
    have hstep : ∀ m : ℕ, ((m : ℕ) : ℚ) ≤ ((1099511627776 : ℕ) : ℚ) →
        q * ((m : ℕ) : ℚ) < ((18446744073709551616 : ℕ) : ℚ) :=
      fun m hm => lt_of_le_of_lt (mul_le_mul_of_nonneg_left hm h0) hbound
    refine ⟨?_, ?_, ?_, ?_⟩
    · exact parseMemSize_finite_case (s ++ "K") s 1024 q (memSizeSplit_K s) hpf h0
        (hstep 1024 (by norm_num))
    · exact parseMemSize_finite_case (s ++ "M") s 1048576 q (memSizeSplit_M s) hpf h0
        (hstep 1048576 (by norm_num))
    · exact parseMemSize_finite_case (s ++ "G") s 1073741824 q (memSizeSplit_G s) hpf h0
        (hstep 1073741824 (by norm_num))
    · exact parseMemSize_finite_case (s ++ "T") s 1099511627776 q (memSizeSplit_T s) hpf
        h0 (hstep 1099511627776 (by norm_num))
  · intro s hK hM hG hT
    constructor
    · intro q hpf hrep h0 hq
      have h1 : q * ((1 : ℕ) : ℚ) < ((18446744073709551616 : ℕ) : ℚ) := by
        rw [Nat.cast_one, mul_one]
        exact hq
      have h := parseMemSize_finite_case s s 1 q (memSizeSplit_none s hK hM hG hT)
        hpf h0 h1
      rw [h]
      rw [show q * ((1 : ℕ) : ℚ) = q from by rw [Nat.cast_one, mul_one]]
    · intro hn
      rw [parseMemSize_of_split, memSizeSplit_none s hK hM hG hT, hn]
  · intro s
    constructor
    · rintro ⟨msg, h⟩
      rw [parseMemSize_of_split] at h
      rcases hp : goParseFloat (memSizeSplit s).2 with _ | v
      · rfl
      · rw [hp] at h
        exact Except.noConfusion h
    · intro h
      exact ⟨"invalid syntax", by rw [parseMemSize_of_split, h]⟩

/-- Witness for C5 (amended): the token `3K` parses to 3×1024 bytes; the
value 3 is binary64-representable. -/
theorem parseMemSize_amended_witness :
    parseMemSize "3K" = Except.ok 3072 := by
  have h := (parseMemSize_amended.2.1 "3" (mkRat 3 1)
    (by decide)
    ⟨3, 0, by norm_num, by norm_num, by norm_num, by rw [Rat.mkRat_eq_div]; norm_num⟩
    (by decide)
    (by rw [Rat.mkRat_eq_div]; push_cast; norm_num)).1
  have h2 : parseMemSize "3K"
      = Except.ok ((Rat.floor (mkRat 3 1 * ((1024 : ℕ) : ℚ))).toNat) := h
  rw [h2]
  refine congrArg Except.ok (rat_floor_toNat_of_eq_nat ?_)
  rw [Rat.mkRat_eq_div]
  push_cast
  norm_num

end MemAnalyzer
